import Mathlib

set_option linter.unusedVariables false

/-! Shallow embedding of sarctool (src/main.rs): a command-line tool that
converts between SARC archives, directory trees and ZIP containers.  The
SARC codec, the ZIP codec, the glob walker and the humansize formatter are
external collaborators of the tool; where a definition depends on one of
them its contract is modelled from the spec and flagged as such in the doc
comment.  Everything else is translated directly from src/main.rs. -/

/-- Byte-order tag of a SARC archive (sarc::Endian, matched in src lines
87-90). -/
inductive Endian
  | little
  | big
  deriving DecidableEq, Repr

/-- One archive entry (sarc::SarcEntry, src lines 151-154): an optional
name and a byte payload.  Bytes are u8 values, modelled as Nat reduced
mod 256 where the value matters. -/
structure SarcEntry where
  name : Option String
  data : List Nat
  deriving DecidableEq, Repr

/-- The in-memory archive model (sarc::SarcFile, src lines 157-160): a
byte-order tag plus an ordered sequence of entries. -/
structure SarcFile where
  byte_order : Endian
  files : List SarcEntry
  deriving DecidableEq, Repr

/-- The three serialization modes of `write` (src lines 133-141): yaz0,
zstd, or the raw archive format. -/
inductive Compression
  | nocomp
  | yaz0
  | zstd
  deriving DecidableEq, Repr

/-- The branch order of `write` (src 134-140): yaz0 first, else zstd,
else plain. -/
def compressionOf (yaz0 zstd : Bool) : Compression :=
  if yaz0 then Compression.yaz0
  else if zstd then Compression.zstd
  else Compression.nocomp

/-- A serialized archive file on disk.  Modelled from the spec: the
external sarc library serializes the archive model under the chosen
compression wrapper (write_yaz0 / write_zstd / write_to_file) and
`SarcFile::read_from_file` transparently detects and undoes whichever
wrapper is present, recovering the model.  The serialized form is
therefore kept symbolically as the pair of the wrapper and the model. -/
structure Serialized where
  compression : Compression
  content : SarcFile
  deriving DecidableEq, Repr

/-- write (src 133-141): serialize the archive with the compression
selected by the yaz0/zstd flags. -/
def write (sarc : SarcFile) (yaz0 zstd : Bool) : Serialized :=
  ⟨compressionOf yaz0 zstd, sarc⟩

/-- SarcFile::read_from_file (called at src 86, 166, 227).  Modelled from
the spec: decoding undoes the compression wrapper and recovers the
archive model. -/
def readSarc (b : Serialized) : SarcFile :=
  b.content

/-- endian (src 125-131): Big exactly when the bool is set, else Little. -/
def endian (big : Bool) : Endian :=
  if big then Endian.big else Endian.little

/-- One regular file of the input directory tree: its path components
relative to the root, and its byte contents.  Directories are implicit in
the components. -/
structure FsFile where
  path : List String
  data : List Nat
  deriving DecidableEq, Repr

/-- A directory tree, modelled as the list of regular files under the
root in walk order. -/
abbrev FileSystem := List FsFile

/-- The glob component pattern `*.*` (src 144): a star matches any
possibly-empty run of characters inside one component, so a component
matches exactly when it contains a literal dot. -/
def matchesStarDotStar (s : String) : Bool :=
  s.toList.contains '.'

/-- Whether the glob `in_dir/**/*.*` (src 144-145) matches a file:
`**` matches any run of directories, so only the final component is
constrained, by `*.*`.  Modelled from the glob contract assumed by the
spec. -/
def globMatches (f : FsFile) : Bool :=
  matchesStarDotStar (f.path.getLastD "")

/-- The entry name built at src 148: the path with the root stripped,
normalized to forward slashes.  Paths are modelled as component lists, so
the normalized relative path is the components joined with "/". -/
def entryName (p : List String) : String :=
  String.intercalate "/" p

/-- zip (src 143-163): glob `in_dir/**/*.*`, build one SarcEntry per
matched file with the forward-slash relative path as name and the file
bytes as data, and write the resulting SarcFile with the selected
compression.  The out_file path argument is the location of the returned
serialized archive and is not modelled further. -/
def zip (yaz0 zstd : Bool) (in_dir : FileSystem) (byte_order : Endian) : Serialized :=
  write
    ⟨byte_order,
     (in_dir.filter globMatches).map (fun f => ⟨some (entryName f.path), f.data⟩)⟩
    yaz0 zstd

/-- The placeholder name `format!("unk{}.bin", unk)` (src 173). -/
def unkName (k : Nat) : String :=
  s!"unk{k}.bin"

/-- How many entries of the list lack a name. -/
def countUnnamed : List SarcEntry → Nat
  | [] => 0
  | e :: rest => (if e.name.isNone then 1 else 0) + countUnnamed rest

/-- The unzip loop (src 167-184), projected on its data flow: for each
entry in order, the path written under out_dir, the bytes written, and
whether the "WARN: file does not have name" line was printed.  The `unk`
counter starts at 0 and is incremented only when an entry has no name. -/
def unzipEntries : List SarcEntry → Nat → List (String × List Nat × Bool)
  | [], _ => []
  | e :: rest, unk =>
    match e.name with
    | some x => (x, e.data, false) :: unzipEntries rest unk
    | none => (unkName unk, e.data, true) :: unzipEntries rest (unk + 1)

/-- unzip (src 165-185): read the archive and write every entry under the
output directory, naming unnamed entries unk0.bin, unk1.bin, ... -/
def unzip (sarc : SarcFile) : List (String × List Nat × Bool) :=
  unzipEntries sarc.files 0

/-- The unzip loop run against a filesystem effect model.  `mkdirOk`
tells whether fs::create_dir_all succeeds for a path and `writeOk`
whether fs::write succeeds.  Mirroring src 181-183: the create_dir_all
result is bound to `_` and discarded, while a failing fs::write is
unwrapped, aborting the run with that path. -/
def unzipRun : List SarcEntry → Nat → (String → Bool) → (String → Bool) →
    Except String (List (String × List Nat))
  | [], _, _, _ => Except.ok []
  | e :: rest, unk, mkdirOk, writeOk =>
    match e.name with
    | some x =>
      let _ := mkdirOk x
      if writeOk x then
        match unzipRun rest unk mkdirOk writeOk with
        | Except.ok ws => Except.ok ((x, e.data) :: ws)
        | Except.error p => Except.error p
      else Except.error x
    | none =>
      let nm := unkName unk
      let _ := mkdirOk nm
      if writeOk nm then
        match unzipRun rest (unk + 1) mkdirOk writeOk with
        | Except.ok ws => Except.ok ((nm, e.data) :: ws)
        | Except.error p => Except.error p
      else Except.error nm

/-- One hex digit of `{:02X}` formatting. -/
def hexDigit (n : Nat) : Char :=
  if n < 10 then Char.ofNat ('0'.toNat + n) else Char.ofNat ('A'.toNat + (n - 10))

/-- hex (src 74-76): `format!("{:02X}", byte)` for a u8 value. -/
def hex (byte : Nat) : String :=
  String.mk [hexDigit (byte % 256 / 16), hexDigit (byte % 256 % 16)]

/-- byte_char (src 78-83): the byte as a char when in ' '..='~', else
'.'. -/
def byte_char (byte : Nat) : Char :=
  let c := Char.ofNat (byte % 256)
  if ' ' ≤ c ∧ c ≤ '~' then c else '.'

/-- Modelled from the spec: the external human-readable size formatter
(humansize, CONVENTIONAL options), named at src 70.  Only its existence
matters to the claims; the sub-1024 branch matches the library, larger
sizes are approximated. -/
def file_size_conventional (sz : Nat) : String :=
  if sz < 1024 then toString sz ++ " B" else toString (sz / 1024) ++ " KB"

/-- size (src 66-72): the raw byte count when --byte-count is set, else
the humansize rendering. -/
def size (sz : Nat) (byte_count : Bool) : String :=
  if byte_count then toString sz else file_size_conventional sz

/-- One printed row of the listing table: size, name, first-bytes
columns. -/
structure ListRow where
  size : String
  name : String
  preview : String
  deriving DecidableEq, Repr

/-- The row built for one entry in the list loop (src 106-113): the
formatted size, the name (or "[no name]"), and the first four bytes as
concatenated hex pairs, " | ", then their printable-or-dot characters.
`file.data[..4]` panics when the payload is shorter than 4 bytes, which
is modelled as none. -/
def entryRow (e : SarcEntry) (byte_count : Bool) : Option ListRow :=
  if 4 ≤ e.data.length then
    some ⟨size e.data.length byte_count,
          e.name.getD "[no name]",
          String.join ((e.data.take 4).map hex) ++ " | "
            ++ String.mk ((e.data.take 4).map byte_char)⟩
  else none

/-- The list loop (src 106-115): accumulate one row per entry and the
running total_size; none when a row panics. -/
def listLoop : List SarcEntry → Bool → Nat → Option (List ListRow × Nat)
  | [], _, total => some ([], total)
  | e :: rest, byte_count, total =>
    match entryRow e byte_count with
    | none => none
    | some r =>
      match listLoop rest byte_count (total + e.data.length) with
      | none => none
      | some (rows, t) => some (r :: rows, t)

/-- The dashed separator row added at src 116-118. -/
def sepRow : ListRow :=
  ⟨"--------", "", "---------------"⟩

/-- `format!("{} file(s)", n)` (src 120). -/
def countLabel (n : Nat) : String :=
  s!"{n} file(s)"

/-- list (src 85-123): the body rows of the printed table, in order: one
row per entry, the dashed separator row, and the totals row with the
aggregated size and the entry count.  The Endian header line and the
column titles are printed separately and not part of the rows.  none when
an entry's preview panics (payload shorter than 4 bytes), in which case
nothing of the table is printed. -/
def list (sarc : SarcFile) (byte_count : Bool) : Option (List ListRow) :=
  match listLoop sarc.files byte_count 0 with
  | none => none
  | some (rows, total) =>
    some (rows ++ [sepRow, ⟨size total byte_count, "", countLabel sarc.files.length⟩])

/-- A ZIP container, modelled as its ordered member list of (name, fully
decompressed bytes); the deflate wrapper of each member is handled
losslessly by the external zip library. -/
abbrev ZipContainer := List (String × List Nat)

/-- `format!("{}.bin", i)` (src 232). -/
def binName (i : Nat) : String :=
  s!"{i}.bin"

/-- The to_zip loop (src 231-234): one ZIP member per entry, in order,
named by the entry's name or "{index}.bin", carrying the entry bytes. -/
def toZipLoop : List SarcEntry → Nat → ZipContainer
  | [], _ => []
  | f :: rest, i => (f.name.getD (binName i), f.data) :: toZipLoop rest (i + 1)

/-- to_zip (src 226-235): read the archive and write each entry as a ZIP
member. -/
def to_zip (sarc : SarcFile) : ZipContainer :=
  toZipLoop sarc.files 0

/-- from_zip, archive-building part (src 240-253): one SarcEntry per ZIP
member in index order, the member name always taken as present, with the
caller-selected byte order. -/
def from_zip (z : ZipContainer) (byte_order : Endian) : SarcFile :=
  ⟨byte_order, z.map (fun p => ⟨some p.1, p.2⟩)⟩

/-- The full from_zip operation (src 237-256): build the archive from the
ZIP members, then write it with the selected compression. -/
def from_zipOp (yaz0 zstd : Bool) (z : ZipContainer) (byte_order : Endian) : Serialized :=
  write (from_zip z byte_order) yaz0 zstd

/-- One declared flag of the Zip / FromZip subcommands (src 20-34 and
44-57): its clap argument name (the kebab-cased field name), its declared
aliases, and the argument names listed in its conflicts_with attribute,
exactly as written in the source. -/
structure ArgDecl where
  name : String
  aliases : List String
  conflicts : List String
  deriving DecidableEq, Repr

/-- The four boolean flags of the Zip and FromZip subcommands as declared
in src 22-30 and 45-53: zstd conflicts with "yaz0"; little-endian
conflicts with "big", which is an alias of big-endian, not the name of
any argument. -/
def zipArgs : List ArgDecl :=
  [⟨"yaz0", ["compress", "c"], []⟩,
   ⟨"zstd", [], ["yaz0"]⟩,
   ⟨"big-endian", ["big"], []⟩,
   ⟨"little-endian", ["little"], ["big"]⟩]

/-- Modelled from the spec and the clap contract it assumes: parsing
records each matched argument under its argument name (aliases resolve to
the owning argument), and validation rejects the parse exactly when some
matched argument declares a conflict with the name of another matched
argument.  A conflicts_with string that is not the name of any matched
argument never triggers. -/
def conflictRejected (decls : List ArgDecl) (matched : List String) : Bool :=
  decls.any (fun a => matched.contains a.name && a.conflicts.any (fun c => matched.contains c))

/-- main's Command::Zip arm (src 191-195): little_endian is bound to a
wildcard and never read; zip is invoked with endian(big_endian). -/
def runZipCmd (yaz0 zstd big_endian little_endian : Bool) (in_dir : FileSystem) : Serialized :=
  zip yaz0 zstd in_dir (endian big_endian)

/-- main's Command::FromZip arm (src 210-214): little_endian is bound to
a wildcard and never read; from_zip is invoked with endian(big_endian). -/
def runFromZipCmd (yaz0 zstd big_endian little_endian : Bool) (z : ZipContainer) : Serialized :=
  from_zipOp yaz0 zstd z (endian big_endian)

/-! ## Helper lemmas -/

/-- When every entry of the list is built with a present name, the unzip
loop writes exactly those names and payloads, with no warning and no use
of the unk counter. -/
theorem unzipEntries_map_named (l : List FsFile) (k : Nat) :
    unzipEntries (l.map (fun f => ⟨some (entryName f.path), f.data⟩)) k
      = l.map (fun f => (entryName f.path, f.data, false)) := by
  induction l generalizing k with
  | nil => rfl
  | cons f rest ih => simp [unzipEntries, ih]

/-! ## Claims -/

/-- C1 (counterexample): the claim says every regular file under the root
is enumerated, but the glob pattern in_dir/**/*.* only matches files
whose final path component contains a dot: packing a root holding the
single file Makefile (byte 77) produces an archive with no entries at
all. -/
theorem zip_skips_dotless_file :
    (readSarc (zip false false [⟨["Makefile"], [77]⟩] Endian.little)).files = [] := by
  decide

/-- C1 (amended): the Directory→Archive Packer enumerates, at every
depth, exactly the regular files whose final path component contains a
dot (the glob *.* match), and produces for each one ArchiveEntry in walk
order whose name is the file's relative path joined with forward slashes
and whose payload is the file's byte contents; the archive carries the
selected byte order. -/
theorem zip_pack_entries_spec (yaz0 zstd : Bool) (fsys : FileSystem) (bo : Endian) (i : Nat) :
    (readSarc (zip yaz0 zstd fsys bo)).byte_order = bo
    ∧ (readSarc (zip yaz0 zstd fsys bo)).files.length = (fsys.filter globMatches).length
    ∧ (readSarc (zip yaz0 zstd fsys bo)).files[i]?
        = ((fsys.filter globMatches)[i]?).map
            (fun f => ⟨some (entryName f.path), f.data⟩) := by
  refine ⟨rfl, ?_, ?_⟩
  · simp [zip, write, readSarc]
  · simp [zip, write, readSarc]

/-- C2 (counterexample): packing then unpacking does not reproduce every
file set: a root holding the single file Makefile (bytes 104 105) is
packed to an empty archive, so unpacking writes nothing instead of the
original file. -/
theorem pack_unpack_drops_dotless_file :
    (unzip (readSarc (zip false false [⟨["Makefile"], [104, 105]⟩] Endian.little))).map
        (fun x => (x.1, x.2.1))
      ≠ [("Makefile", [104, 105])] := by
  decide

/-- C2 (amended): for every directory tree, byte order and compression
selection, packing and then unpacking reproduces exactly the set of
files matched by the glob *.* (final path component contains a dot):
the same forward-slash relative paths, byte-identical contents, in walk
order, and nothing else. -/
theorem pack_unpack_roundtrip (yaz0 zstd : Bool) (fsys : FileSystem) (bo : Endian) :
    (unzip (readSarc (zip yaz0 zstd fsys bo))).map (fun x => (x.1, x.2.1))
      = (fsys.filter globMatches).map (fun f => (entryName f.path, f.data)) := by
  show (unzipEntries ((fsys.filter globMatches).map
      (fun f => ⟨some (entryName f.path), f.data⟩)) 0).map (fun x => (x.1, x.2.1))
    = (fsys.filter globMatches).map (fun f => (entryName f.path, f.data))
  rw [unzipEntries_map_named]
  simp [List.map_map]

/-- C3 (code evaluated at the failing input): listing an archive whose
single entry "test" has the 1-byte payload [1] panics at the slice
file.data[..4]; the whole table rendering aborts and nothing is
printed. -/
theorem list_short_payload_crashes :
    list ⟨Endian.little, [⟨some "test", [1]⟩]⟩ false = none := by
  decide

/-- C4 (counterexample): at the claim's input — one entry "test.bin"
with bytes 01 02 03 04 05 06 — the rendered preview column is
"01020304 | ....": the hex pairs are concatenated with no separating
spaces, so it differs from the claimed "01 02 03 04 | ....". -/
theorem list_preview_spaces_counterexample :
    list ⟨Endian.little, [⟨some "test.bin", [1, 2, 3, 4, 5, 6]⟩]⟩ true
        = some [⟨"6", "test.bin", "01020304 | ...."⟩, sepRow, ⟨"6", "", "1 file(s)"⟩]
    ∧ "01020304 | ...." ≠ "01 02 03 04 | ...." := by
  decide

/-- C7 (counterexample): the listing does not print one row per entry
plus a totals row for every archive: with one entry of payload [9]
(shorter than 4 bytes) the rendering panics and produces no rows at
all. -/
theorem list_rows_crash_counterexample :
    (list ⟨Endian.little, [⟨some "a", [9]⟩]⟩ true).isSome = false := by
  decide

/-- C10: for the zip and from-zip operations the byte order of the
produced archive is Big exactly when --big-endian is set; the
--little-endian flag is never read, so its value cannot affect the
result. -/
theorem byte_order_from_big_endian_only (yaz0 zstd big little little' : Bool)
    (fsys : FileSystem) (z : ZipContainer) :
    runZipCmd yaz0 zstd big little fsys = runZipCmd yaz0 zstd big little' fsys
    ∧ runFromZipCmd yaz0 zstd big little z = runFromZipCmd yaz0 zstd big little' z
    ∧ (readSarc (runZipCmd yaz0 zstd big little fsys)).byte_order
        = (if big then Endian.big else Endian.little)
    ∧ (readSarc (runFromZipCmd yaz0 zstd big little z)).byte_order
        = (if big then Endian.big else Endian.little) := by
  refine ⟨rfl, rfl, ?_, ?_⟩ <;> cases big <;> rfl

/-- Elementwise description of the unzip loop: the i-th processed entry
keeps its own name when present, and otherwise receives the unk name for
the counter value k plus the number of unnamed entries strictly before
it. -/
theorem unzipEntries_get (files : List SarcEntry) (k i : Nat) :
    (unzipEntries files k)[i]?
      = (files[i]?).map (fun e =>
          match e.name with
          | some x => (x, e.data, false)
          | none => (unkName (k + countUnnamed (files.take i)), e.data, true)) := by
  induction files generalizing k i with
  | nil => simp [unzipEntries]
  | cons e rest ih =>
    cases hn : e.name with
    | some x =>
      cases i with
      | zero => simp [unzipEntries, hn]
      | succ i =>
        simpa [unzipEntries, hn, countUnnamed] using ih k i
    | none =>
      cases i with
      | zero => simp [unzipEntries, hn, countUnnamed]
      | succ i =>
        simpa [unzipEntries, hn, countUnnamed, Nat.add_assoc] using ih (k + 1) i

/-- Length of the to_zip member list. -/
theorem toZipLoop_length (files : List SarcEntry) (k : Nat) :
    (toZipLoop files k).length = files.length := by
  induction files generalizing k with
  | nil => rfl
  | cons f rest ih => simp [toZipLoop, ih]

/-- Elementwise description of the to_zip loop: the i-th member carries
the i-th entry's bytes under its name, or under "{index}.bin" for the
running index k + i when the entry is unnamed. -/
theorem toZipLoop_get (files : List SarcEntry) (k i : Nat) :
    (toZipLoop files k)[i]?
      = (files[i]?).map (fun f => (f.name.getD (binName (k + i)), f.data)) := by
  induction files generalizing k i with
  | nil => simp [toZipLoop]
  | cons f rest ih =>
    cases i with
    | zero => simp [toZipLoop]
    | succ i =>
      have hk : k + 1 + i = k + (i + 1) := by omega
      simp only [toZipLoop, List.getElem?_cons_succ]
      rw [ih (k + 1) i, hk]

/-- When every entry has at least four payload bytes the list loop
succeeds, produces one row per entry, and accumulates the total payload
size onto its accumulator. -/
theorem listLoop_complete (files : List SarcEntry) (bc : Bool) (t : Nat)
    (h : ∀ e ∈ files, 4 ≤ e.data.length) :
    ∃ rows, listLoop files bc t
        = some (rows, t + (files.map (fun e => e.data.length)).sum)
      ∧ rows.length = files.length := by
  induction files generalizing t with
  | nil => exact ⟨[], by simp [listLoop], rfl⟩
  | cons e rest ih =>
    have he : 4 ≤ e.data.length := h e (List.mem_cons_self e rest)
    obtain ⟨rows, hrows, hlen⟩ :=
      ih (t + e.data.length) (fun x hx => h x (List.mem_cons_of_mem e hx))
    refine ⟨(⟨size e.data.length bc, e.name.getD "[no name]",
        String.join ((e.data.take 4).map hex) ++ " | "
          ++ String.mk ((e.data.take 4).map byte_char)⟩ : ListRow) :: rows, ?_, by simp [hlen]⟩
    simp only [listLoop, entryRow, if_pos he, hrows, List.map_cons, List.sum_cons,
      Nat.add_assoc]

/-- The create_dir_all outcome is dead in the unzip loop: two runs that
differ only in the mkdir oracle produce the same result. -/
theorem unzipRun_mkdir_irrelevant (files : List SarcEntry) (unk : Nat)
    (mk mk' w : String → Bool) :
    unzipRun files unk mk w = unzipRun files unk mk' w := by
  induction files generalizing unk with
  | nil => rfl
  | cons e rest ih =>
    cases hn : e.name with
    | some x => simp only [unzipRun, hn]; rw [ih unk]
    | none => simp only [unzipRun, hn]; rw [ih (unk + 1)]

/-- The unzip loop aborts only at a path whose fs::write fails. -/
theorem unzipRun_error_write_failed (files : List SarcEntry) (unk : Nat)
    (mk w : String → Bool) :
    ∀ p, unzipRun files unk mk w = Except.error p → w p = false := by
  induction files generalizing unk with
  | nil => intro p h; simp [unzipRun] at h
  | cons e rest ih =>
    intro p h
    cases hn : e.name with
    | some x =>
      simp only [unzipRun, hn] at h
      by_cases hw : w x
      · rw [if_pos hw] at h
        cases hrec : unzipRun rest unk mk w with
        | ok ws => rw [hrec] at h; cases h
        | error q =>
          rw [hrec] at h
          cases h
          exact ih unk p hrec
      · rw [if_neg hw] at h
        cases h
        simpa using hw
    | none =>
      simp only [unzipRun, hn] at h
      by_cases hw : w (unkName unk)
      · rw [if_pos hw] at h
        cases hrec : unzipRun rest (unk + 1) mk w with
        | ok ws => rw [hrec] at h; cases h
        | error q =>
          rw [hrec] at h
          cases h
          exact ih (unk + 1) p hrec
      · rw [if_neg hw] at h
        cases h
        simpa using hw

/-- C4 (amended): for the entry "test.bin" with bytes 01 02 03 04 05 06
the listing renders the row with size "6", name "test.bin", and preview
"01020304 | ...." — the first four bytes as two-digit uppercase hex pairs
concatenated with no separator, then " | ", then one printable-ASCII-or-
dot character per byte (bytes 1-4 are non-printable, hence "...."). -/
theorem list_preview_scenario :
    entryRow ⟨some "test.bin", [1, 2, 3, 4, 5, 6]⟩ true
        = some ⟨"6", "test.bin", "01020304 | ...."⟩
    ∧ String.join (([1, 2, 3, 4] : List Nat).map hex) = "01020304"
    ∧ String.mk (([1, 2, 3, 4] : List Nat).map byte_char) = "...." := by
  decide

/-- C5: unzip writes the i-th entry's payload under the entry's own name
when it has one (with no warning and no effect on the unk counter), and
writes the k-th unnamed entry, for k the number of unnamed entries
before it in encounter order, under the synthesized name unk{k}.bin with
a warning emitted. -/
theorem unzip_entry_naming (sarc : SarcFile) (i : Nat) :
    (unzip sarc)[i]?
      = (sarc.files[i]?).map (fun e =>
          match e.name with
          | some x => (x, e.data, false)
          | none => (unkName (countUnnamed (sarc.files.take i)), e.data, true)) := by
  simpa using unzipEntries_get sarc.files 0 i

/-- C6: converting a binary archive to ZIP and back with the same byte
order preserves the byte order, the number and order of entries and every
entry's payload bytes; an entry that had a name keeps it, and the i-th
entry, when unnamed, receives the synthetic name "{i}.bin" for its
0-based position in the original archive. -/
theorem to_zip_from_zip_roundtrip (sarc : SarcFile) (i : Nat) :
    (from_zip (to_zip sarc) sarc.byte_order).byte_order = sarc.byte_order
    ∧ (from_zip (to_zip sarc) sarc.byte_order).files.length = sarc.files.length
    ∧ (from_zip (to_zip sarc) sarc.byte_order).files[i]?
        = (sarc.files[i]?).map
            (fun f => ⟨some (f.name.getD (binName i)), f.data⟩) := by
  refine ⟨rfl, ?_, ?_⟩
  · simp [from_zip, to_zip, toZipLoop_length]
  · simp only [from_zip, to_zip, List.getElem?_map, toZipLoop_get, Option.map_map,
      Nat.zero_add]
    rfl

/-- C7 (amended): for every archive all of whose entries carry at least
four payload bytes, the listing prints one row per entry followed by the
dashed separator row and a totals row whose size field is the formatted
sum of all payload lengths and whose count field is "{n} file(s)"; with
zero entries this is no per-entry rows and a totals row of size 0 and
"0 file(s)". -/
theorem list_rows_totals_spec (sarc : SarcFile) (bc : Bool)
    (h : ∀ e ∈ sarc.files, 4 ≤ e.data.length) :
    ∃ rows, list sarc bc
        = some (rows ++ [sepRow,
            ⟨size ((sarc.files.map (fun e => e.data.length)).sum) bc, "",
             countLabel sarc.files.length⟩])
      ∧ rows.length = sarc.files.length := by
  obtain ⟨rows, hrows, hlen⟩ := listLoop_complete sarc.files bc 0 h
  exact ⟨rows, by simp [list, hrows], hlen⟩

/-- C7 (witness): the zero-entry archive lists as no per-entry rows and
the totals row with size "0" and "0 file(s)". -/
theorem list_rows_totals_spec_witness :
    ∃ rows, list ⟨Endian.little, []⟩ true
        = some (rows ++ [sepRow,
            ⟨size ((([] : List SarcEntry).map (fun e => e.data.length)).sum) true, "",
             countLabel ([] : List SarcEntry).length⟩])
      ∧ rows.length = ([] : List SarcEntry).length :=
  list_rows_totals_spec ⟨Endian.little, []⟩ true (by simp)

/-- C8 (code evaluated at the failing input): requesting --yaz0 and
--zstd together is rejected (zstd declares a conflict with the argument
named "yaz0"), and the defaults with no flags are little-endian and no
compression; but requesting --big-endian and --little-endian together is
NOT rejected, because the declared conflict names "big" — an alias of
big-endian, not the name of any argument — so it never matches a parsed
argument. -/
theorem flag_conflict_enforcement :
    conflictRejected zipArgs ["yaz0", "zstd"] = true
    ∧ conflictRejected zipArgs ["big-endian", "little-endian"] = false
    ∧ (zipArgs.map (fun a => a.name)).contains "big" = false
    ∧ ((zipArgs.filter (fun a => a.name == "big-endian")).map
        (fun a => a.aliases)).flatten.contains "big" = true
    ∧ endian false = Endian.little
    ∧ compressionOf false false = Compression.nocomp := by
  decide

/-- C9: the result of fs::create_dir_all is discarded in the unzip loop:
runs differing only in the mkdir oracle are identical (no warning, no
abort, no change of outcome), and the loop aborts only with a path whose
fs::write failed. -/
theorem unzip_mkdir_result_ignored (files : List SarcEntry) (unk : Nat)
    (mk mk' w : String → Bool) :
    unzipRun files unk mk w = unzipRun files unk mk' w
    ∧ ∀ p, unzipRun files unk mk w = Except.error p → w p = false :=
  ⟨unzipRun_mkdir_irrelevant files unk mk mk' w,
   unzipRun_error_write_failed files unk mk w⟩

/-- C9 (witness): concrete instance — a failing mkdir oracle changes
nothing for the entry a.txt, and the run that aborts at "a.txt" does so
because fs::write fails there. -/
theorem unzip_mkdir_result_ignored_witness :
    unzipRun [⟨some "a.txt", [1]⟩] 0 (fun _ => false) (fun _ => true)
      = unzipRun [⟨some "a.txt", [1]⟩] 0 (fun _ => true) (fun _ => true)
    ∧ (fun (_ : String) => false) "a.txt" = false :=
  ⟨(unzip_mkdir_result_ignored [⟨some "a.txt", [1]⟩] 0
      (fun _ => false) (fun _ => true) (fun _ => true)).1,
   (unzip_mkdir_result_ignored [⟨some "a.txt", [1]⟩] 0
      (fun _ => false) (fun _ => true) (fun _ => false)).2 "a.txt" rfl⟩
